import Mathlib

/-!
Verification of the launcher's dependency resolution and acquisition
pipeline: a shallow embedding of `src/versions/manager.py`,
`src/versions/download_manager.py` and `src/runtime/java_manager.py`,
with theorems settling the stated properties of rule evaluation,
descriptor caching, downloading and runtime provisioning.
-/

deriving instance DecidableEq for Except

namespace Launcher

/-! ## Data model (src/versions/models.py)

Fields the claimed code paths never read (timestamps, compliance levels,
extraction rules, natives tables) are omitted from the embedding. -/

/-- `VersionLibraryRulesOs`: optional OS name / version / arch filters. -/
structure RuleOs where
  name : Option String
  version : Option String
  arch : Option String
deriving DecidableEq, Repr

/-- `VersionLibraryRules`: an action string plus an optional OS filter. -/
structure LibRule where
  action : String
  os : Option RuleOs
deriving DecidableEq, Repr

/-- `VersionLibraryArtifact`: path, sha1, url (all optional in the model). -/
structure Artifact where
  path : Option String
  sha1 : Option String
  url : Option String
deriving DecidableEq, Repr

/-- `VersionLibraryDownloads`: optional primary artifact and classifiers. -/
structure LibDownloads where
  artifact : Option Artifact
  classifiers : Option (List (String × Artifact))
deriving DecidableEq, Repr

/-- `VersionLibrary`: name, optional downloads block, optional rule list. -/
structure Library where
  name : String
  downloads : Option LibDownloads
  rules : Option (List LibRule)
deriving DecidableEq, Repr

/-- `VersionInfo`: a manifest entry; the code reads `id`, `url`, `sha1`. -/
structure VersionInfo where
  id : String
  url : String
  sha1 : Option String
deriving DecidableEq, Repr

/-- The execution environment the rule evaluator runs against
(`current_os`, `current_arch` in `filter_applicable_libraries`). -/
structure Env where
  osName : String
  arch : String
deriving DecidableEq, Repr

/-! ## Rule evaluation (VersionManager._matches_rule,
VersionManager.filter_applicable_libraries) -/

/-- Python's contiguous-substring test `needle in haystack` on strings,
used by `_matches_rule` for the arch filter. -/
def substr (needle haystack : List Char) : Bool :=
  (needle.isPrefixOf haystack) ||
    (match haystack with
     | [] => false
     | _ :: t => substr needle t)

/-- `VersionManager._matches_rule`: a rule with no OS filter matches; a
name filter fails when truthy (non-empty) and different from the
environment OS; an arch filter fails when truthy and not a substring of
the environment arch. -/
def matches_rule (env : Env) (r : LibRule) : Bool :=
  match r.os with
  | none => true
  | some o =>
    (match o.name with
     | none => true
     | some n => n == "" || n == env.osName) &&
    (match o.arch with
     | none => true
     | some a => a == "" || substr a.toList env.arch.toList)

/-- The rule loop of `filter_applicable_libraries` (lines 90-100): the
running `allow` flag starts `True`; a matching disallow rule sets it
`False` and breaks; a matching allow rule sets it `True`; a non-matching
allow rule sets it `False`; a non-matching disallow rule leaves it. -/
def eval_rules (env : Env) : List LibRule → Bool → Bool
  | [], allow => allow
  | r :: rs, allow =>
    if matches_rule env r then
      if r.action == "disallow" then false
      else if r.action == "allow" then eval_rules env rs true
      else eval_rules env rs allow
    else
      if r.action == "allow" then eval_rules env rs false
      else eval_rules env rs allow

/-- Per-library applicability: a library with `rules` absent or empty
(`if not lib.rules`) is always included; otherwise the loop decides. -/
def lib_applicable (env : Env) (lib : Library) : Bool :=
  match lib.rules with
  | none => true
  | some [] => true
  | some rs => eval_rules env rs true

/-- `VersionManager.filter_applicable_libraries`: the append-if-allowed
loop over `metadata.libraries`, which is exactly a filter. -/
def filter_applicable_libraries (env : Env) (libs : List Library) : List Library :=
  libs.filter (lib_applicable env)

/-- Verdict of the specification's rule-evaluation description. -/
inductive Verdict where
  | allow
  | exclude
deriving DecidableEq, Repr

/-- Modelled from the spec's words, for comparison with the code: rules
are evaluated in order starting from an implicit exclude verdict; on
match the rule's action becomes the verdict; a non-matching allow rule
resets the verdict to exclude; a non-matching disallow rule has no
effect; no early exit. -/
def specVerdict (env : Env) (rules : List LibRule) : Verdict :=
  rules.foldl
    (fun v r =>
      if matches_rule env r then
        if r.action == "allow" then Verdict.allow
        else if r.action == "disallow" then Verdict.exclude
        else v
      else
        if r.action == "allow" then Verdict.exclude
        else v)
    Verdict.exclude

/-- The code's evaluation, phrased as a verdict automaton: starts from
allow; a matching disallow yields exclude at once (the loop breaks); a
matching allow sets allow; a non-matching allow resets to exclude; a
non-matching disallow leaves the verdict. -/
def amendedVerdict (env : Env) : List LibRule → Verdict → Verdict
  | [], v => v
  | r :: rs, v =>
    if matches_rule env r then
      if r.action == "disallow" then Verdict.exclude
      else if r.action == "allow" then amendedVerdict env rs Verdict.allow
      else amendedVerdict env rs v
    else
      if r.action == "allow" then amendedVerdict env rs Verdict.exclude
      else amendedVerdict env rs v

/-! ## Descriptor cache (VersionManager.fetch_version_metadata,
VersionManager.get_version_info) -/

/-- A raw descriptor document: the embedded `sha1` key the cache check
reads, plus the rest of the payload, kept abstract. -/
structure Doc where
  sha1 : Option String
  body : String
deriving DecidableEq, Repr

/-- `VersionManager.fetch_version_metadata`, as a function of the cached
document (if any), the index-declared hash, and the document the network
would return. Result: the returned document, whether a network fetch
happened, and the cache afterwards. No clock or timestamp is consulted:
the definition has no time input at all. -/
def fetch_version_metadata (cache : Option Doc) (declared : Option String)
    (net : Doc) : Doc × Bool × Option Doc :=
  match cache with
  | some d => if d.sha1 == declared then (d, false, some d) else (net, true, some net)
  | none => (net, true, some net)

/-- `VersionManager.get_version_info`: first manifest entry with the
requested id, else `None`. -/
def get_version_info (version_id : String) (versions : List VersionInfo) :
    Option VersionInfo :=
  versions.find? (fun v => v.id == version_id)

/-- Whole-resolution failures surfaced to the caller. -/
inductive ResolveErr where
  | notFound
deriving DecidableEq, Repr

/-- Descriptor resolution as the caller (`src/ui/main.py`) chains it:
look the id up in the manifest — an absent id is the NotFound failure,
surfaced at once with no retry and no descriptor fetch — then resolve
the descriptor through the hash-checked cache. -/
def resolve_descriptor (version_id : String) (versions : List VersionInfo)
    (cache : Option Doc) (net : String → Doc) :
    Except ResolveErr (Doc × Bool) :=
  match get_version_info version_id versions with
  | none => Except.error ResolveErr.notFound
  | some vi =>
    match fetch_version_metadata cache vi.sha1 (net vi.url) with
    | (d, fetched, _) => Except.ok (d, fetched)

/-! ## Integrity-checked fetch (DownloadManager.download_file,
DownloadManager.verify_sha1)

The filesystem is an association list from paths to byte contents; the
digest function stands in for `hashlib.sha1` as a parameter, since the
claims depend only on digest comparisons, never on the digest's
internals. -/

/-- Filesystem state: path to content. -/
def Fs := List (String × List Nat)
deriving DecidableEq

/-- Content at a path, if the file exists. -/
def Fs.get? : Fs → String → Option (List Nat)
  | [], _ => none
  | (q, d) :: rest, p => if q = p then some d else Fs.get? rest p

/-- Write a path's content, replacing any previous content. -/
def Fs.set : Fs → String → List Nat → Fs
  | [], p, c => [(p, c)]
  | (q, d) :: rest, p, c =>
    if q = p then (p, c) :: rest else (q, d) :: Fs.set rest p c

/-- What `session.get(url)` yields: an HTTP/connection failure (the
exception `raise_for_status` or the connector raises), or the chunk
stream, each chunk paired with the flag `iter_chunks` supplies. -/
inductive NetResult where
  | failure (code : Nat)
  | success (chunks : List (List Nat × Bool))
deriving DecidableEq, Repr

/-- Python's `str.lower()`, character by character. -/
def str_lower (s : String) : String :=
  ⟨s.data.map Char.toLower⟩

/-- `DownloadManager.verify_sha1`: digest of the file's whole content
(the incremental 8192-byte loop computes exactly that) compared with the
lowercased expected hash. -/
def verify_sha1 (digest : List Nat → String) (content : List Nat)
    (expected : String) : Bool :=
  digest content == str_lower expected

/-- The sequence of filesystem states the chunk-writing loop of
`download_file` produces: a chunk whose flag is falsy is skipped
(`continue`), a flagged chunk is appended to the open destination
file. -/
def write_chunks (dest : String) (fs : Fs) :
    List (List Nat × Bool) → List Fs
  | [] => []
  | (d, flag) :: rest =>
    if flag then
      let fs2 := fs.set dest (((fs.get? dest).getD []) ++ d)
      fs2 :: write_chunks dest fs2 rest
    else write_chunks dest fs rest

/-- The content the loop downloads: concatenation of the flagged
chunks. -/
def flagged_join (chunks : List (List Nat × Bool)) : List Nat :=
  (chunks.filter (fun c => c.2)).map (fun c => c.1) |>.flatten

/-- Result of one `download_file` call: the returned value (`Except` for
a raised network error), the number of network requests performed, every
filesystem state observable during the call (initial state, the state
right after `open(dest, 'wb')` truncates the destination, and one state
per flagged chunk written), and the final state. -/
structure DownloadRun where
  result : Except Nat Bool
  fetches : Nat
  states : List Fs
  final : Fs

/-- `DownloadManager.download_file` (the body inside the admission gate;
the semaphore itself is modelled by the transition system below).
Unconditionally performs the network request; on failure the exception
propagates with the filesystem untouched. On success it opens the
destination for writing — truncating it in place, no temporary file —
streams the flagged chunks into it, then, when an expected hash was
supplied and disagrees with the digest, returns `false` leaving the
written content where it is; otherwise returns `true`. -/
def download_file (digest : List Nat → String) (net : NetResult) (fs0 : Fs)
    (dest : String) (expected : Option String) : DownloadRun :=
  match net with
  | NetResult.failure code =>
    { result := Except.error code, fetches := 1, states := [fs0], final := fs0 }
  | NetResult.success chunks =>
    let fs1 := fs0.set dest []
    let ws := write_chunks dest fs1 chunks
    let fsN := ws.getLastD fs1
    let content := flagged_join chunks
    let ret : Except Nat Bool :=
      match expected with
      | some exp => if verify_sha1 digest content exp then Except.ok true else Except.ok false
      | none => Except.ok true
    { result := ret, fetches := 1, states := fs0 :: fs1 :: ws, final := fsN }

/-- The spec's fetch contract for an existing, hash-matching
destination, stated over a run: no network activity at all. -/
def SkippedNoNetwork (run : DownloadRun) : Prop :=
  run.fetches = 0

/-- The spec's atomic-placement contract, stated over a run: until the
final state, the destination is exactly as it started (only an atomic
rename at the end may populate it). -/
def AtomicPlacement (run : DownloadRun) (fs0 : Fs) (dest : String) : Prop :=
  ∀ s ∈ run.states.dropLast, Fs.get? s dest = Fs.get? fs0 dest

/-! ## Orchestration (DownloadManager.download_libraries)

`asyncio.gather(*tasks, return_exceptions=True)` runs the coroutines
concurrently and stores each one's result — a value or a captured
exception — at the slot of its submission index. The completion order is
an arbitrary permutation of the indices chosen by the scheduler; the
result slots are filled in completion order and read out in submission
order. -/

/-- One download task: the loop body of `download_libraries` builds it
from a library's primary artifact (`url`, `~/.minecraft/libraries/` ++
`path`, `sha1`). -/
structure Task where
  url : Option String
  dest : String
  sha1 : Option String
deriving DecidableEq, Repr

/-- A library is skipped (`continue`) exactly when its `downloads` block
or its primary artifact is absent. -/
def has_artifact (lib : Library) : Bool :=
  match lib.downloads with
  | none => false
  | some dl => dl.artifact.isSome

/-- The exception the task-building loop raises synchronously: joining
`Path.home() / ".minecraft" / "libraries"` with `artifact.path` when the
path is `None` is a `TypeError`, thrown inside the loop before any
gather, so the whole `download_libraries` call aborts with no outcome
sequence. -/
inductive LoopErr where
  | typeError
deriving DecidableEq, Repr

/-- The task the loop body builds from a present primary artifact:
`url = artifact.url`, `dest = ~/.minecraft/libraries/<artifact.path>`,
`sha1 = artifact.sha1` — or the `TypeError` when `artifact.path` is
absent. -/
def mk_task (a : Artifact) : Except LoopErr Task :=
  match a.path with
  | some p => Except.ok { url := a.url
                          dest := "~/.minecraft/libraries/" ++ p
                          sha1 := a.sha1 }
  | none => Except.error LoopErr.typeError

/-- The task-building loop of `download_libraries`: libraries without a
downloads block or primary artifact are skipped, and a present artifact
whose path is absent raises, aborting the loop at that point. -/
def build_tasks : List Library → Except LoopErr (List Task)
  | [] => Except.ok []
  | lib :: rest =>
    match lib.downloads with
    | none => build_tasks rest
    | some dl =>
      match dl.artifact with
      | none => build_tasks rest
      | some a =>
        match mk_task a with
        | Except.ok t => (build_tasks rest).map (fun ts => t :: ts)
        | Except.error e => Except.error e

/-- The tasks the loop builds when it completes without raising: one per
library carrying a primary artifact with a present path, in order. Used
to state what `build_tasks` returns in the non-raising case. -/
def tasks_of (libs : List Library) : List Task :=
  libs.filterMap (fun lib =>
    match lib.downloads with
    | none => none
    | some dl =>
      match dl.artifact with
      | none => none
      | some a =>
        match a.path with
        | some p => some { url := a.url
                           dest := "~/.minecraft/libraries/" ++ p
                           sha1 := a.sha1 }
        | none => none)

/-- Does the library avoid the loop's `TypeError`: either it is skipped,
or its present primary artifact carries a path. -/
def artifact_path_ok (lib : Library) : Bool :=
  match lib.downloads with
  | none => true
  | some dl =>
    match dl.artifact with
    | none => true
    | some a => a.path.isSome

/-- One task's terminal outcome: its own `download_file` call against the
network's response for it, any raised exception captured as a value
(`return_exceptions=True`). -/
def run_task (digest : List Nat → String) (net : Task → NetResult)
    (t : Task) : Except Nat Bool :=
  (download_file digest (net t) [] t.dest t.sha1).result

/-- `asyncio.gather` with `return_exceptions=True`: slots indexed by
submission order, filled in the scheduler's completion order. -/
def gatherExec (outcomes : List (Except Nat Bool)) (order : List Nat) :
    List (Option (Except Nat Bool)) :=
  order.foldl
    (fun acc i =>
      match outcomes.get? i with
      | some v => acc.set i (some v)
      | none => acc)
    (List.replicate outcomes.length none)

/-- `DownloadManager.download_libraries`: build the tasks — a raised
`TypeError` aborts the call here, before the gather, with no outcome
sequence — then gather the tasks' outcomes under the scheduler's
completion order. -/
def download_libraries (digest : List Nat → String) (net : Task → NetResult)
    (libs : List Library) (order : List Nat) :
    Except LoopErr (List (Option (Except Nat Bool))) :=
  (build_tasks libs).map
    (fun tasks => gatherExec (tasks.map (run_task digest net)) order)

/-! ## Admission gate (DownloadManager.__init__, the semaphore around
download_file)

`download_file` acquires the semaphore before its `try` block and
releases it in the `finally` clause, so every path out of the body —
returning `True`, returning `False` on an integrity mismatch, or a
propagating network exception — releases the slot before the task
completes. The transition system below is that structure: each task is
a thread that acquires (possible only while slots remain), runs its
body to one of the three outcomes, and in the same completing step gives
its slot back. -/

/-- `DownloadManager.__init__` default for `concurrent_downloads`. -/
def concurrent_downloads_default : Nat := 8

/-- The three ways the gated body ends. -/
inductive BodyOutcome where
  | success
  | integrityFail
  | netError
deriving DecidableEq, Repr

/-- Where one download task stands relative to the gate. -/
inductive Pc where
  | idle
  | working
  | done (o : BodyOutcome)
deriving DecidableEq, Repr

/-- Is the task holding a slot? -/
def Pc.isWorking : Pc → Bool
  | Pc.working => true
  | _ => false

/-- Gate state: free slots plus every task's position. -/
structure SemState where
  avail : Nat
  threads : List Pc
deriving DecidableEq

/-- Tasks currently in flight (between acquire and release). -/
def inFlight (s : SemState) : Nat :=
  s.threads.countP Pc.isWorking

/-- One scheduler step: an idle task acquires a slot (only when one is
free), or an in-flight task finishes with any of the three outcomes,
releasing its slot in the `finally` clause as it completes. -/
inductive SemStep : SemState → SemState → Prop where
  | acquire (s : SemState) (i : Nat) (h : s.threads.get? i = some Pc.idle)
      (ha : 0 < s.avail) :
      SemStep s ⟨s.avail - 1, s.threads.set i Pc.working⟩
  | finish (s : SemState) (i : Nat) (o : BodyOutcome)
      (h : s.threads.get? i = some Pc.working) :
      SemStep s ⟨s.avail + 1, s.threads.set i (Pc.done o)⟩

/-- Initial state: every slot free, no task started. -/
def semInit (bound n : Nat) : SemState :=
  ⟨bound, List.replicate n Pc.idle⟩

/-- States the orchestrator can reach from the initial state. -/
def SemReachable (bound n : Nat) (s : SemState) : Prop :=
  Relation.ReflTransGen SemStep (semInit bound n) s

/-! ## Runtime provisioning (JavaManager.ensure_java,
JavaManager.download_java)

The system probe, the version report of a binary, the runtime-cache glob
and the download-and-extract result are external effects; the embedding
takes them as an environment and keeps `ensure_java`'s control flow. -/

/-- External world `ensure_java` consults: the system probe result, the
version each binary reports, the runtime-cache scan, and what
`download_java` would yield. `download_java` takes no expected hash —
the download is performed without hash verification. -/
structure JavaWorld where
  system_java : Option String
  version_of : String → Option String
  cached_javas : List String
  download_result : Option String

/-- Python's `str.startswith`. -/
def str_starts (s p : String) : Bool :=
  p.data.isPrefixOf s.data

/-- The version test `ensure_java` applies: a reported version string
starting with `"17"` (`version.startswith("17")`). -/
def version_matches_17 (v : Option String) : Bool :=
  match v with
  | some s => str_starts s "17"
  | none => false

/-- The exception message `ensure_java` raises when every step fails. -/
def java_unavailable_msg : String :=
  "Could not find or download suitable Java runtime"

/-- Step (c): return `download_java`'s result, else raise. -/
def ensure_java_download (w : JavaWorld) : Except String String :=
  match w.download_result with
  | some p => Except.ok p
  | none => Except.error java_unavailable_msg

/-- Step (b): first cached binary reporting a matching version, else
step (c). -/
def ensure_java_cached (w : JavaWorld) : Except String String :=
  match w.cached_javas.find? (fun p => version_matches_17 (w.version_of p)) with
  | some p => Except.ok p
  | none => ensure_java_download w

/-- `JavaManager.ensure_java`: system probe first — returned only when
its reported version matches — then the cache scan, then the download. -/
def ensure_java (w : JavaWorld) : Except String String :=
  match w.system_java with
  | some p =>
    if version_matches_17 (w.version_of p) then Except.ok p else ensure_java_cached w
  | none => ensure_java_cached w

/-- The system-probe step's successful candidate, if any. -/
def system_hit (w : JavaWorld) : Option String :=
  match w.system_java with
  | some p => if version_matches_17 (w.version_of p) then some p else none
  | none => none

/-- The cache-scan step's successful candidate, if any. -/
def cache_hit (w : JavaWorld) : Option String :=
  w.cached_javas.find? (fun p => version_matches_17 (w.version_of p))

/-! ## Test fixtures for witnesses and counterexamples -/

/-- A concrete stand-in digest for tests: the content's length, printed. -/
def digest_len (c : List Nat) : String := toString c.length

/-- Fifty concrete download tasks. -/
def tasks50 : List Task :=
  (List.range 50).map (fun i =>
    { url := some ("u" ++ toString i)
      dest := "d" ++ toString i
      sha1 := none })

/-- A network where exactly the task with url `u2` (submission index 2)
fails. -/
def net50 : Task → NetResult := fun t =>
  if t.url = some "u2" then NetResult.failure 404 else NetResult.success []

/-- Is an orchestrator slot a captured failure? -/
def outcome_is_failure (o : Option (Except Nat Bool)) : Bool :=
  match o with
  | some (Except.error _) => true
  | _ => false

/-! ## Helper lemmas -/

theorem fs_get_set_self (fs : Fs) (p : String) (c : List Nat) :
    Fs.get? (Fs.set fs p c) p = some c := by
  induction fs with
  | nil => simp [Fs.set, Fs.get?]
  | cons hd tl ih =>
    by_cases h : hd.1 = p
    · simp [Fs.set, Fs.get?, h]
    · simp [Fs.set, Fs.get?, h, ih]

theorem fs_get_set_other (fs : Fs) (p : String) (c : List Nat) (q : String)
    (h : q ≠ p) : Fs.get? (Fs.set fs p c) q = Fs.get? fs q := by
  have hpq : ¬(p = q) := fun he => h he.symm
  induction fs with
  | nil =>
    simp only [Fs.set, Fs.get?]
    rw [if_neg hpq]
  | cons hd tl ih =>
    obtain ⟨a, b⟩ := hd
    by_cases h1 : a = p
    · subst h1
      simp only [Fs.set, if_pos rfl, Fs.get?]
      rw [if_neg hpq, if_neg hpq]
    · simp only [Fs.set, if_neg h1, Fs.get?]
      by_cases h2 : a = q
      · rw [if_pos h2, if_pos h2]
      · rw [if_neg h2, if_neg h2]
        exact ih

theorem flagged_join_cons_true (d : List Nat) (rest : List (List Nat × Bool)) :
    flagged_join ((d, true) :: rest) = d ++ flagged_join rest := by
  simp [flagged_join]

theorem flagged_join_cons_false (d : List Nat) (rest : List (List Nat × Bool)) :
    flagged_join ((d, false) :: rest) = flagged_join rest := by
  simp [flagged_join]

theorem write_chunks_last (dest : String) :
    ∀ (chunks : List (List Nat × Bool)) (fs : Fs) (c : List Nat),
      Fs.get? fs dest = some c →
      Fs.get? ((write_chunks dest fs chunks).getLastD fs) dest
        = some (c ++ flagged_join chunks) := by
  intro chunks
  induction chunks with
  | nil => intro fs c h; simp [write_chunks, flagged_join, h]
  | cons ch rest ih =>
    intro fs c h
    match ch with
    | (d, true) =>
      rw [flagged_join_cons_true]
      simp only [write_chunks, if_true, h, Option.getD_some, List.getLastD_cons]
      have h2 : Fs.get? (Fs.set fs dest (c ++ d)) dest = some (c ++ d) :=
        fs_get_set_self fs dest (c ++ d)
      have := ih (Fs.set fs dest (c ++ d)) (c ++ d) h2
      rw [this, List.append_assoc]
    | (d, false) =>
      rw [flagged_join_cons_false]
      simp only [write_chunks, if_false]
      exact ih fs c h

theorem write_chunks_take (dest : String) :
    ∀ (chunks : List (List Nat × Bool)) (fs : Fs) (c : List Nat),
      Fs.get? fs dest = some c →
      ∀ s ∈ write_chunks dest fs chunks,
        ∃ k, Fs.get? s dest = some (c ++ (flagged_join chunks).take k) := by
  intro chunks
  induction chunks with
  | nil => intro fs c _ s hs; simp [write_chunks] at hs
  | cons ch rest ih =>
    intro fs c h s hs
    match ch with
    | (d, true) =>
      rw [flagged_join_cons_true]
      simp only [write_chunks, if_true, h, Option.getD_some, List.mem_cons] at hs
      rcases hs with hs | hs
      · refine ⟨d.length, ?_⟩
        rw [hs, fs_get_set_self, List.take_left]
      · have h2 : Fs.get? (Fs.set fs dest (c ++ d)) dest = some (c ++ d) :=
          fs_get_set_self fs dest (c ++ d)
        obtain ⟨k, hk⟩ := ih (Fs.set fs dest (c ++ d)) (c ++ d) h2 s hs
        refine ⟨d.length + k, ?_⟩
        rw [hk, List.take_append, List.append_assoc]
    | (d, false) =>
      rw [flagged_join_cons_false]
      simp only [write_chunks, if_false] at hs
      exact ih fs c h s hs

theorem write_chunks_other (dest : String) :
    ∀ (chunks : List (List Nat × Bool)) (fs : Fs),
      ∀ s ∈ write_chunks dest fs chunks,
        ∀ p, p ≠ dest → Fs.get? s p = Fs.get? fs p := by
  intro chunks
  induction chunks with
  | nil => intro fs s hs; simp [write_chunks] at hs
  | cons ch rest ih =>
    intro fs s hs p hp
    match ch with
    | (d, true) =>
      simp only [write_chunks, if_true, List.mem_cons] at hs
      rcases hs with hs | hs
      · rw [hs]; exact fs_get_set_other fs dest _ p hp
      · rw [ih (Fs.set fs dest _) s hs p hp]
        exact fs_get_set_other fs dest _ p hp
    | (d, false) =>
      simp only [write_chunks, if_false] at hs
      exact ih fs s hs p hp

/-! ## Claim C2 -/

/-- C2, counterexample: at a destination that already exists with content
matching the supplied expected hash (the digest of `[7]` is `"1"`), the
claim says fetch returns Skipped with no network activity; the code has
no such path — this call still performs a network fetch (and there is no
Skipped outcome at all). -/
theorem c2_counterexample :
    Fs.get? [("d", [7])] "d" = some [7] ∧
    verify_sha1 digest_len [7] "1" = true ∧
    (download_file digest_len (NetResult.success [([7], true)]) [("d", [7])] "d"
        (some "1")).fetches = 1 ∧
    ¬ SkippedNoNetwork (download_file digest_len (NetResult.success [([7], true)])
        [("d", [7])] "d" (some "1")) := by
  refine ⟨by decide, by decide, by decide, ?_⟩
  show ¬ (download_file digest_len (NetResult.success [([7], true)])
      [("d", [7])] "d" (some "1")).fetches = 0
  decide

/-- C2 as amended: `download_file` never inspects the existing
destination; every call performs exactly one network request, whatever
the prior filesystem state, the expected hash, and the response — so a
warm cache is re-downloaded, not skipped. -/
theorem c2_always_fetches_amended (digest : List Nat → String)
    (net : NetResult) (fs0 : Fs) (dest : String) (expected : Option String) :
    (download_file digest net fs0 dest expected).fetches = 1 := by
  cases net <;> rfl

/-! ## Claim C5 -/

/-- C5, counterexample: a two-chunk download writes the destination in
place; mid-transfer the destination holds only the first chunk, so a
partially written destination is observable and the atomic-placement
contract fails. -/
theorem c5_counterexample :
    ¬ AtomicPlacement (download_file digest_len
        (NetResult.success [([1], true), ([2], true)]) [] "d" none) [] "d" ∧
    [("d", [1])] ∈ (download_file digest_len
        (NetResult.success [([1], true), ([2], true)]) [] "d" none).states ∧
    Fs.get? [("d", [1])] "d" = some [1] ∧
    (download_file digest_len
        (NetResult.success [([1], true), ([2], true)]) [] "d" none).final
      = [("d", [1, 2])] := by
  refine ⟨?_, by decide, by decide, by decide⟩
  show ¬ ∀ s ∈ (download_file digest_len
      (NetResult.success [([1], true), ([2], true)]) [] "d" none).states.dropLast,
      Fs.get? s "d" = Fs.get? ([] : Fs) "d"
  decide

/-- C5 as amended: on a successful response the content is streamed
directly into the destination file in place — the destination is
truncated at open and grows chunk by chunk, every observable state
holding some leading portion of the final content; no path other than
the destination is ever written, and the final state holds exactly the
concatenation of the flagged chunks. There is no temporary file and no
rename. -/
theorem c5_in_place_write_amended (digest : List Nat → String)
    (chunks : List (List Nat × Bool)) (fs0 : Fs) (dest : String)
    (expected : Option String) :
    Fs.get? (download_file digest (NetResult.success chunks) fs0 dest
        expected).final dest = some (flagged_join chunks) ∧
    (∀ s ∈ (download_file digest (NetResult.success chunks) fs0 dest
        expected).states, ∀ p, p ≠ dest → Fs.get? s p = Fs.get? fs0 p) ∧
    (∀ s ∈ ((download_file digest (NetResult.success chunks) fs0 dest
        expected).states).tail,
      ∃ k, Fs.get? s dest = some ((flagged_join chunks).take k)) := by
  have h1 : Fs.get? (Fs.set fs0 dest []) dest = some [] :=
    fs_get_set_self fs0 dest []
  refine ⟨?_, ?_, ?_⟩
  · have h2 := write_chunks_last dest chunks (Fs.set fs0 dest []) [] h1
    simpa [download_file] using h2
  · intro s hs p hp
    simp only [download_file, List.mem_cons] at hs
    rcases hs with hs | hs | hs
    · rw [hs]
    · rw [hs]
      exact fs_get_set_other fs0 dest [] p hp
    · rw [write_chunks_other dest chunks (Fs.set fs0 dest []) s hs p hp]
      exact fs_get_set_other fs0 dest [] p hp
  · intro s hs
    simp only [download_file, List.tail_cons, List.mem_cons] at hs
    rcases hs with hs | hs
    · exact ⟨0, by rw [hs, h1, List.take_zero]⟩
    · obtain ⟨k, hk⟩ := write_chunks_take dest chunks (Fs.set fs0 dest []) [] h1 s hs
      exact ⟨k, by simpa using hk⟩

/-- C5 witness: the amended theorem applied at a concrete three-chunk
run (the middle chunk unflagged): the destination ends up holding
exactly the flagged content. -/
theorem c5_witness :
    Fs.get? (download_file digest_len
        (NetResult.success [([3], true), ([4], false), ([5], true)])
        [("x", [9])] "d" none).final "d" = some [3, 5] :=
  (c5_in_place_write_amended digest_len [([3], true), ([4], false), ([5], true)]
    [("x", [9])] "d" none).1

/-! ## Claim C6 -/

/-- C6, counterexample: a fetch whose downloaded content digests to `"2"`
against expected hash `"9"` returns failure — but nothing is discarded:
the mismatching content sits at the destination path, whereas the claim
requires the destination unchanged. -/
theorem c6_counterexample :
    verify_sha1 digest_len [1, 2] "9" = false ∧
    (download_file digest_len (NetResult.success [([1, 2], true)]) [] "d"
        (some "9")).result = Except.ok false ∧
    ¬ (Fs.get? (download_file digest_len (NetResult.success [([1, 2], true)])
        [] "d" (some "9")).final "d" = Fs.get? ([] : Fs) "d") ∧
    Fs.get? (download_file digest_len (NetResult.success [([1, 2], true)])
        [] "d" (some "9")).final "d" = some [1, 2] := by
  refine ⟨by decide, by decide, by decide, by decide⟩

/-- C6 as amended: when the expected hash disagrees with the digest of
the downloaded content, `download_file` returns `false` (the failure
outcome) but the mismatching content remains at the destination path —
the temp-file discard the claim describes does not exist. -/
theorem c6_integrity_failure_amended (digest : List Nat → String)
    (chunks : List (List Nat × Bool)) (fs0 : Fs) (dest : String) (exp : String)
    (h : verify_sha1 digest (flagged_join chunks) exp = false) :
    (download_file digest (NetResult.success chunks) fs0 dest
        (some exp)).result = Except.ok false ∧
    Fs.get? (download_file digest (NetResult.success chunks) fs0 dest
        (some exp)).final dest = some (flagged_join chunks) := by
  constructor
  · simp [download_file, h]
  · have h1 : Fs.get? (Fs.set fs0 dest []) dest = some [] :=
      fs_get_set_self fs0 dest []
    have h2 := write_chunks_last dest chunks (Fs.set fs0 dest []) [] h1
    simpa [download_file] using h2

/-- C6 witness: the amended theorem at a concrete mismatching run. -/
theorem c6_witness :
    (download_file digest_len (NetResult.success [([1, 2], true)]) [] "d"
        (some "9")).result = Except.ok false :=
  (c6_integrity_failure_amended digest_len [([1, 2], true)] [] "d" "9"
    (by decide)).1

/-! ## Claim C1 -/

theorem eval_rules_amended (env : Env) :
    ∀ (rs : List LibRule) (b : Bool),
      (eval_rules env rs b = true ↔
        amendedVerdict env rs (if b then Verdict.allow else Verdict.exclude)
          = Verdict.allow) := by
  intro rs
  induction rs with
  | nil =>
    intro b
    cases b <;> simp [eval_rules, amendedVerdict]
  | cons r rest ih =>
    intro b
    by_cases hm : matches_rule env r
    · by_cases hd : r.action == "disallow"
      · simp [eval_rules, amendedVerdict, hm, hd]
      · by_cases ha : r.action == "allow"
        · simpa [eval_rules, amendedVerdict, hm, hd, ha] using ih true
        · simpa [eval_rules, amendedVerdict, hm, hd, ha] using ih b
    · by_cases ha : r.action == "allow"
      · simpa [eval_rules, amendedVerdict, hm, ha] using ih false
      · simpa [eval_rules, amendedVerdict, hm, ha] using ih b

/-- C1, counterexample to the claimed spec semantics, at two concrete
rule lists on env `{linux, x86_64}`: a lone non-matching disallow rule is
included by the code (the loop starts from allow) though the spec
evaluation ends at exclude; and `[disallow no-filter, allow no-filter]`
is excluded by the code (the loop breaks on the matching disallow)
though the spec evaluation ends at allow. -/
theorem c1_counterexample :
    ¬ ((⟨"a", none, some [⟨"disallow", some ⟨some "windows", none, none⟩⟩]⟩ : Library)
          ∈ filter_applicable_libraries ⟨"linux", "x86_64"⟩
            [⟨"a", none, some [⟨"disallow", some ⟨some "windows", none, none⟩⟩]⟩]
        ↔ specVerdict ⟨"linux", "x86_64"⟩
            [⟨"disallow", some ⟨some "windows", none, none⟩⟩] = Verdict.allow) ∧
    ¬ ((⟨"b", none, some [⟨"disallow", none⟩, ⟨"allow", none⟩]⟩ : Library)
          ∈ filter_applicable_libraries ⟨"linux", "x86_64"⟩
            [⟨"b", none, some [⟨"disallow", none⟩, ⟨"allow", none⟩]⟩]
        ↔ specVerdict ⟨"linux", "x86_64"⟩
            [⟨"disallow", none⟩, ⟨"allow", none⟩] = Verdict.allow) := by
  constructor
  · intro hiff
    have h1 : (⟨"a", none, some [⟨"disallow", some ⟨some "windows", none, none⟩⟩]⟩ : Library)
        ∈ filter_applicable_libraries ⟨"linux", "x86_64"⟩
          [⟨"a", none, some [⟨"disallow", some ⟨some "windows", none, none⟩⟩]⟩] := by
      decide
    exact absurd (hiff.mp h1) (by decide)
  · intro hiff
    have h2 : specVerdict ⟨"linux", "x86_64"⟩
        [⟨"disallow", none⟩, ⟨"allow", none⟩] = Verdict.allow := by decide
    have h3 := hiff.mpr h2
    exact absurd h3 (by decide)

/-- C1 as amended: a library is in the applicable sequence iff it is in
the descriptor's list and — when it carries a non-empty rule list —
evaluating its rules in declaration order starting from an implicit
*allow* verdict ends at allow, where a matching disallow rule sets the
verdict to exclude and stops evaluation, a matching allow rule sets it
to allow, a non-matching allow rule resets it to exclude, and a
non-matching disallow rule leaves it unchanged. The claim's concrete
example is unaffected: [{allow, no filter}, {disallow, os=windows}] is
included on linux and excluded on windows (see the witness). -/
theorem c1_rule_evaluation_amended (env : Env) (libs : List Library)
    (lib : Library) :
    lib ∈ filter_applicable_libraries env libs ↔
      lib ∈ libs ∧ ∀ rs, lib.rules = some rs → rs ≠ [] →
        amendedVerdict env rs Verdict.allow = Verdict.allow := by
  rw [filter_applicable_libraries, List.mem_filter]
  constructor
  · rintro ⟨hmem, happ⟩
    refine ⟨hmem, ?_⟩
    intro rs hrs hne
    rw [lib_applicable, hrs] at happ
    match rs, hne with
    | r :: rest, _ =>
      exact (eval_rules_amended env (r :: rest) true).mp happ
  · rintro ⟨hmem, hrules⟩
    refine ⟨hmem, ?_⟩
    rw [lib_applicable]
    match h : lib.rules with
    | none => rfl
    | some [] => rfl
    | some (r :: rest) =>
      exact (eval_rules_amended env (r :: rest) true).mpr
        (hrules (r :: rest) h (by simp))

/-- C1 witness: the amended theorem at the claim's own example — rules
[{allow, no filter}, {disallow, os=windows}]: included on a linux
environment, excluded on a windows environment. -/
theorem c1_witness :
    (⟨"lwjgl", none, some [⟨"allow", none⟩,
        ⟨"disallow", some ⟨some "windows", none, none⟩⟩]⟩ : Library)
      ∈ filter_applicable_libraries ⟨"linux", "x86_64"⟩
        [⟨"lwjgl", none, some [⟨"allow", none⟩,
          ⟨"disallow", some ⟨some "windows", none, none⟩⟩]⟩] ∧
    ¬ ((⟨"lwjgl", none, some [⟨"allow", none⟩,
        ⟨"disallow", some ⟨some "windows", none, none⟩⟩]⟩ : Library)
      ∈ filter_applicable_libraries ⟨"windows", "x86_64"⟩
        [⟨"lwjgl", none, some [⟨"allow", none⟩,
          ⟨"disallow", some ⟨some "windows", none, none⟩⟩]⟩]) := by
  constructor
  · exact (c1_rule_evaluation_amended ⟨"linux", "x86_64"⟩ _ _).mpr
      ⟨by decide, by intro rs hrs hne; cases hrs; decide⟩
  · intro hmem
    have h := ((c1_rule_evaluation_amended ⟨"windows", "x86_64"⟩ _ _).mp hmem).2
      [⟨"allow", none⟩, ⟨"disallow", some ⟨some "windows", none, none⟩⟩]
      rfl (by simp)
    exact absurd h (by decide)

/-! ## Claim C7 -/

/-- C7: `fetch_version_metadata` skips the network exactly when a cached
document exists whose stored hash equals the index-declared hash (Option
equality, so two absent hashes also agree — exactly Python's
`data.get("sha1") == version_info.sha1`); in that case it returns the
cached document with the cache untouched, and in every other case it
fetches, persists and returns the fresh document. The definition takes
no clock input, so invalidation can only depend on hash equality. -/
theorem c7_descriptor_cache (cache : Option Doc) (declared : Option String)
    (net : Doc) :
    ((fetch_version_metadata cache declared net).2.1 = false ↔
      ∃ d, cache = some d ∧ d.sha1 = declared) ∧
    (∀ d, cache = some d → d.sha1 = declared →
      fetch_version_metadata cache declared net = (d, false, some d)) ∧
    ((fetch_version_metadata cache declared net).2.1 = true →
      fetch_version_metadata cache declared net = (net, true, some net)) := by
  match cache with
  | none => simp [fetch_version_metadata]
  | some d =>
    by_cases h : d.sha1 = declared
    · simp [fetch_version_metadata, h]
    · have hb : (d.sha1 == declared) = false := by
        simp [h]
      simp [fetch_version_metadata, hb, h]

/-- C7 witness: a cached document whose stored hash matches the declared
hash is returned with no fetch. -/
theorem c7_witness :
    fetch_version_metadata (some ⟨some "abc", "cached-body"⟩) (some "abc")
        ⟨some "abc", "fresh-body"⟩
      = (⟨some "abc", "cached-body"⟩, false, some ⟨some "abc", "cached-body"⟩) :=
  (c7_descriptor_cache (some ⟨some "abc", "cached-body"⟩) (some "abc")
    ⟨some "abc", "fresh-body"⟩).2.1 ⟨some "abc", "cached-body"⟩ rfl rfl

/-! ## Claim C8 -/

/-- C8: a version id absent from every manifest entry makes the index
lookup return nothing and descriptor resolution surface NotFound at
once — a single pass over the manifest, no descriptor fetch and no
retry. -/
theorem c8_not_found (version_id : String) (versions : List VersionInfo)
    (cache : Option Doc) (net : String → Doc)
    (h : ∀ v ∈ versions, v.id ≠ version_id) :
    get_version_info version_id versions = none ∧
    resolve_descriptor version_id versions cache net
      = Except.error ResolveErr.notFound := by
  have hfind : get_version_info version_id versions = none := by
    rw [get_version_info, List.find?_eq_none]
    intro v hv
    simp [h v hv]
  refine ⟨hfind, ?_⟩
  rw [resolve_descriptor, hfind]

/-- C8 witness: requesting `"9.9.9"` against a manifest listing only
`"1.20.1"` fails with NotFound. -/
theorem c8_witness :
    resolve_descriptor "9.9.9" [⟨"1.20.1", "https://meta/1.20.1.json", some "abc"⟩]
        none (fun _ => ⟨none, ""⟩)
      = Except.error ResolveErr.notFound :=
  (c8_not_found "9.9.9" [⟨"1.20.1", "https://meta/1.20.1.json", some "abc"⟩]
    none (fun _ => ⟨none, ""⟩) (by decide)).2

/-! ## Claim C9 -/

theorem ensure_java_cached_spec (w : JavaWorld) :
    (∀ p, cache_hit w = some p → ensure_java_cached w = Except.ok p) ∧
    (cache_hit w = none → ∀ p, w.download_result = some p →
      ensure_java_cached w = Except.ok p) ∧
    (ensure_java_cached w = Except.error java_unavailable_msg ↔
      cache_hit w = none ∧ w.download_result = none) := by
  rw [ensure_java_cached, ensure_java_download]
  match hc : cache_hit w with
  | some p =>
    rw [cache_hit] at hc
    rw [hc]
    simp
  | none =>
    rw [cache_hit] at hc
    rw [hc]
    match hd : w.download_result with
    | some p => simp
    | none => simp

/-- C9: `ensure_java` prefers the system probe — returned exactly when
its reported version matches (`startswith "17"`, the code's test for the
required major version) — then the runtime-cache scan, then the
hash-unverified download (`download_java` takes no expected hash), and
it raises the unavailability error precisely when all three steps come
up empty. -/
theorem c9_ensure_java (w : JavaWorld) :
    (∀ p, system_hit w = some p → ensure_java w = Except.ok p) ∧
    (system_hit w = none → ∀ p, cache_hit w = some p →
      ensure_java w = Except.ok p) ∧
    (system_hit w = none → cache_hit w = none →
      ∀ p, w.download_result = some p → ensure_java w = Except.ok p) ∧
    (ensure_java w = Except.error java_unavailable_msg ↔
      system_hit w = none ∧ cache_hit w = none ∧ w.download_result = none) := by
  have hcs := ensure_java_cached_spec w
  rcases hs : w.system_java with - | q
  · have hsh : system_hit w = none := by rw [system_hit, hs]
    have hej : ensure_java w = ensure_java_cached w := by rw [ensure_java, hs]
    refine ⟨?_, ?_, ?_, ?_⟩
    · intro p hp
      rw [hsh] at hp
      cases hp
    · intro _ p hp
      rw [hej]
      exact hcs.1 p hp
    · intro _ hc p hp
      rw [hej]
      exact hcs.2.1 hc p hp
    · rw [hej, hcs.2.2, hsh]
      simp
  · match hvv : version_matches_17 (w.version_of q) with
    | true =>
      have hsh : system_hit w = some q := by simp [system_hit, hs, hvv]
      have hej : ensure_java w = Except.ok q := by simp [ensure_java, hs, hvv]
      refine ⟨?_, ?_, ?_, ?_⟩
      · intro p hp
        rw [hsh] at hp
        cases hp
        exact hej
      · intro h0
        rw [hsh] at h0
        cases h0
      · intro h0
        rw [hsh] at h0
        cases h0
      · constructor
        · intro habs
          rw [hej] at habs
          cases habs
        · rintro ⟨h0, -⟩
          rw [hsh] at h0
          cases h0
    | false =>
      have hsh : system_hit w = none := by simp [system_hit, hs, hvv]
      have hej : ensure_java w = ensure_java_cached w := by
        simp [ensure_java, hs, hvv]
      refine ⟨?_, ?_, ?_, ?_⟩
      · intro p hp
        rw [hsh] at hp
        cases hp
      · intro _ p hp
        rw [hej]
        exact hcs.1 p hp
      · intro _ hc p hp
        rw [hej]
        exact hcs.2.1 hc p hp
      · rw [hej, hcs.2.2, hsh]
        simp

/-- C9 witness: a system runtime reporting version 21 is passed over and
the cached runtime reporting 17.0.2 is returned by the second step. -/
theorem c9_witness :
    ensure_java
        { system_java := some "/usr/bin/java"
          version_of := fun p =>
            if p = "/usr/bin/java" then some "21.0.1"
            else if p = "/cache/jdk17/bin/java" then some "17.0.2" else none
          cached_javas := ["/cache/jdk17/bin/java"]
          download_result := none }
      = Except.ok "/cache/jdk17/bin/java" :=
  (c9_ensure_java _).2.1 (by decide) "/cache/jdk17/bin/java" (by decide)

/-! ## Claims C3 and C10: the orchestrator -/

theorem gather_foldl_length (outcomes : List (Except Nat Bool)) :
    ∀ (order : List Nat) (init : List (Option (Except Nat Bool))),
      (order.foldl
        (fun acc i =>
          match outcomes.get? i with
          | some v => acc.set i (some v)
          | none => acc) init).length = init.length := by
  intro order
  induction order with
  | nil => intro init; rfl
  | cons i rest ih =>
    intro init
    rw [List.foldl_cons, ih]
    match outcomes.get? i with
    | some v => exact List.length_set ..
    | none => rfl

theorem gather_foldl_get (outcomes : List (Except Nat Bool)) :
    ∀ (order : List Nat) (init : List (Option (Except Nat Bool)))
      (j : Nat) (v : Except Nat Bool),
      outcomes.get? j = some v → j < init.length →
      ((j ∈ order →
        (order.foldl
          (fun acc i =>
            match outcomes.get? i with
            | some w => acc.set i (some w)
            | none => acc) init).get? j = some (some v)) ∧
       (j ∉ order →
        (order.foldl
          (fun acc i =>
            match outcomes.get? i with
            | some w => acc.set i (some w)
            | none => acc) init).get? j = init.get? j)) := by
  intro order
  induction order with
  | nil =>
    intro init j v _ _
    exact ⟨fun h => absurd h (List.not_mem_nil j), fun _ => rfl⟩
  | cons i rest ih =>
    intro init j v hv hj
    have hlen :
        (match outcomes.get? i with
         | some w => init.set i (some w)
         | none => init).length = init.length := by
      match outcomes.get? i with
      | some w => exact List.length_set ..
      | none => rfl
    rw [List.foldl_cons]
    constructor
    · intro hmem
      by_cases hjr : j ∈ rest
      · exact (ih _ j v hv (hlen ▸ hj)).1 hjr
      · have hji : j = i := by
          rcases List.mem_cons.mp hmem with h | h
          · exact h
          · exact absurd h hjr
        subst hji
        rw [(ih _ j v hv (hlen ▸ hj)).2 hjr, hv]
        exact List.get?_set_eq_of_lt (some v) hj
    · intro hnmem
      have hji : j ≠ i := fun he => hnmem (he ▸ List.mem_cons_self i rest)
      have hjr : j ∉ rest := fun h => hnmem (List.mem_cons_of_mem i h)
      rw [(ih _ j v hv (hlen ▸ hj)).2 hjr]
      match outcomes.get? i with
      | some w => exact List.get?_set_ne (some w) init (fun he => hji he.symm)
      | none => rfl

/-- `asyncio.gather` under any completion order that is a permutation of
the submission indices yields exactly the per-task outcomes in
submission order. -/
theorem gather_perm (outcomes : List (Except Nat Bool)) (order : List Nat)
    (h : order.Perm (List.range outcomes.length)) :
    gatherExec outcomes order = outcomes.map some := by
  apply List.ext_get?
  intro j
  by_cases hj : j < outcomes.length
  · obtain ⟨v, hv⟩ : ∃ v, outcomes.get? j = some v := by
      rw [List.get?_eq_get hj]
      exact ⟨_, rfl⟩
    have hmem : j ∈ order := h.mem_iff.mpr (List.mem_range.mpr hj)
    have hinit : j < (List.replicate outcomes.length
        (none : Option (Except Nat Bool))).length := by
      simpa using hj
    rw [gatherExec,
      (gather_foldl_get outcomes order (List.replicate outcomes.length none)
        j v hv hinit).1 hmem,
      List.get?_map, hv]
    rfl
  · have h1 : (gatherExec outcomes order).get? j = none := by
      rw [List.get?_eq_none]
      rw [gatherExec, gather_foldl_length]
      simpa using Nat.le_of_not_lt hj
    have h2 : (outcomes.map some).get? j = none := by
      rw [List.get?_eq_none]
      simpa using Nat.le_of_not_lt hj
    rw [h1, h2]

/-- C3: under any scheduler completion order, `download_libraries`
returns one terminal outcome per submitted task, at the task's own
submission index — so the output mirrors the input order — and every
outcome is that task's own `download_file` result with any raised error
captured as a value, so one task's failure neither aborts nor alters a
sibling's outcome. -/
theorem c3_download_all_order (digest : List Nat → String)
    (net : Task → NetResult) (tasks : List Task) (order : List Nat)
    (h : order.Perm (List.range tasks.length)) :
    gatherExec (tasks.map (run_task digest net)) order
        = tasks.map (fun t => some (run_task digest net t)) ∧
    (gatherExec (tasks.map (run_task digest net)) order).length
        = tasks.length := by
  have hlen : (tasks.map (run_task digest net)).length = tasks.length :=
    List.length_map ..
  have hgather := gather_perm (tasks.map (run_task digest net)) order
    (by rwa [hlen])
  constructor
  · rw [hgather, List.map_map]
    rfl
  · rw [hgather]
    simp

theorem tasks_of_cons_skip (lib : Library) (rest : List Library)
    (h : lib.downloads = none ∨
      ∃ dl, lib.downloads = some dl ∧ dl.artifact = none) :
    tasks_of (lib :: rest) = tasks_of rest := by
  rcases h with h | ⟨dl, hd, ha⟩
  · simp [tasks_of, List.filterMap_cons, h]
  · simp [tasks_of, List.filterMap_cons, hd, ha]

theorem tasks_of_cons_art (lib : Library) (rest : List Library)
    (dl : LibDownloads) (a : Artifact) (p : String)
    (hd : lib.downloads = some dl) (ha : dl.artifact = some a)
    (hp : a.path = some p) :
    tasks_of (lib :: rest)
      = { url := a.url
          dest := "~/.minecraft/libraries/" ++ p
          sha1 := a.sha1 } :: tasks_of rest := by
  simp [tasks_of, List.filterMap_cons, hd, ha, hp]

theorem build_tasks_ok : ∀ (libs : List Library),
    (∀ lib ∈ libs, artifact_path_ok lib = true) →
    build_tasks libs = Except.ok (tasks_of libs) := by
  intro libs
  induction libs with
  | nil => intro _; rfl
  | cons lib rest ih =>
    intro hpath
    have hl := hpath lib (List.mem_cons_self lib rest)
    have ihr := ih (fun l h2 => hpath l (List.mem_cons_of_mem lib h2))
    match hd : lib.downloads with
    | none =>
      have hb : build_tasks (lib :: rest) = build_tasks rest := by
        simp [build_tasks, hd]
      rw [hb, tasks_of_cons_skip lib rest (Or.inl hd), ihr]
    | some dl =>
      match ha : dl.artifact with
      | none =>
        have hb : build_tasks (lib :: rest) = build_tasks rest := by
          simp [build_tasks, hd, ha]
        rw [hb, tasks_of_cons_skip lib rest (Or.inr ⟨dl, hd, ha⟩), ihr]
      | some a =>
        match hp : a.path with
        | some p =>
          have hb : build_tasks (lib :: rest)
              = (build_tasks rest).map
                  (fun ts => { url := a.url
                               dest := "~/.minecraft/libraries/" ++ p
                               sha1 := a.sha1 } :: ts) := by
            simp [build_tasks, hd, ha, mk_task, hp]
          rw [hb, ihr, tasks_of_cons_art lib rest dl a p hd ha hp]
          rfl
        | none =>
          simp only [artifact_path_ok, hd, ha, hp, Option.isSome] at hl
          exact absurd hl (by decide)

theorem build_tasks_raises : ∀ (libs : List Library),
    (∃ lib ∈ libs, artifact_path_ok lib = false) →
    build_tasks libs = Except.error LoopErr.typeError := by
  intro libs
  induction libs with
  | nil =>
    rintro ⟨l, hmem, -⟩
    cases hmem
  | cons lib rest ih =>
    rintro ⟨l, hmem, hbad⟩
    rcases List.mem_cons.mp hmem with rfl | hmem2
    · match hd : l.downloads with
      | none =>
        simp only [artifact_path_ok, hd] at hbad
        exact absurd hbad (by decide)
      | some dl =>
        match ha : dl.artifact with
        | none =>
          simp only [artifact_path_ok, hd, ha] at hbad
          exact absurd hbad (by decide)
        | some a =>
          match hp : a.path with
          | some p =>
            simp only [artifact_path_ok, hd, ha, hp, Option.isSome] at hbad
            exact absurd hbad (by decide)
          | none => simp [build_tasks, hd, ha, mk_task, hp]
    · have hrest := ih ⟨l, hmem2, hbad⟩
      match hd : lib.downloads with
      | none => simp [build_tasks, hd, hrest]
      | some dl =>
        match ha : dl.artifact with
        | none => simp [build_tasks, hd, ha, hrest]
        | some a =>
          match hp : a.path with
          | none => simp [build_tasks, hd, ha, mk_task, hp]
          | some p =>
            simp [build_tasks, hd, ha, mk_task, hp, hrest, Except.map]

theorem tasks_of_length : ∀ (libs : List Library),
    (∀ lib ∈ libs, artifact_path_ok lib = true) →
    (tasks_of libs).length = (libs.filter has_artifact).length := by
  intro libs
  induction libs with
  | nil => intro _; rfl
  | cons lib rest ih =>
    intro hpath
    have hl := hpath lib (List.mem_cons_self lib rest)
    have ihr := ih (fun l h2 => hpath l (List.mem_cons_of_mem lib h2))
    match hd : lib.downloads with
    | none =>
      have hf : has_artifact lib = false := by simp [has_artifact, hd]
      rw [tasks_of_cons_skip lib rest (Or.inl hd)]
      simp [List.filter_cons, hf, ihr]
    | some dl =>
      match ha : dl.artifact with
      | none =>
        have hf : has_artifact lib = false := by simp [has_artifact, hd, ha]
        rw [tasks_of_cons_skip lib rest (Or.inr ⟨dl, hd, ha⟩)]
        simp [List.filter_cons, hf, ihr]
      | some a =>
        match hp : a.path with
        | some p =>
          have hf : has_artifact lib = true := by simp [has_artifact, hd, ha]
          rw [tasks_of_cons_art lib rest dl a p hd ha hp]
          simp [List.filter_cons, hf, ihr]
        | none =>
          simp only [artifact_path_ok, hd, ha, hp, Option.isSome] at hl
          exact absurd hl (by decide)

/-- C10 as amended: when every present primary artifact carries a path,
libraries whose downloads block or primary artifact is absent are
silently dropped before the gather — no task is built and no outcome is
emitted for them — so the outcome sequence has exactly one element per
artifact-bearing library, in order, and is never longer than the input
list; but when some library carries a primary artifact whose path is
absent, the loop raises `TypeError` while building that library's
destination and the whole call aborts with no outcome sequence at
all. -/
theorem c10_library_filtering (digest : List Nat → String)
    (net : Task → NetResult) (libs : List Library) (order : List Nat) :
    ((∀ lib ∈ libs, artifact_path_ok lib = true) →
      order.Perm (List.range (tasks_of libs).length) →
      download_libraries digest net libs order
          = Except.ok ((tasks_of libs).map
              (fun t => some (run_task digest net t))) ∧
      (tasks_of libs).length = (libs.filter has_artifact).length ∧
      (libs.filter has_artifact).length ≤ libs.length) ∧
    ((∃ lib ∈ libs, artifact_path_ok lib = false) →
      download_libraries digest net libs order
          = Except.error LoopErr.typeError) := by
  constructor
  · intro hpath hperm
    have hb := build_tasks_ok libs hpath
    have hg := gather_perm ((tasks_of libs).map (run_task digest net)) order
      (by simpa using hperm)
    refine ⟨?_, tasks_of_length libs hpath, List.length_filter_le ..⟩
    rw [download_libraries, hb, Except.map, hg, List.map_map]
    rfl
  · intro hex
    rw [download_libraries, build_tasks_raises libs hex]
    rfl

/-- C3 witness: fifty tasks where only the task at submission index 2
fails, gathered under the reversed completion order: the outcome
sequence has 50 elements, exactly one captured failure, and it sits at
index 2. -/
theorem c3_witness :
    (gatherExec (tasks50.map (run_task digest_len net50))
        ((List.range tasks50.length).reverse)).length = 50 ∧
    (gatherExec (tasks50.map (run_task digest_len net50))
        ((List.range tasks50.length).reverse)).get? 2
      = some (some (Except.error 404)) ∧
    (gatherExec (tasks50.map (run_task digest_len net50))
        ((List.range tasks50.length).reverse)).countP outcome_is_failure
      = 1 := by
  have h := c3_download_all_order digest_len net50 tasks50
    ((List.range tasks50.length).reverse) (List.reverse_perm _)
  refine ⟨?_, ?_, ?_⟩
  · rw [h.1]
    decide
  · rw [h.1]
    decide
  · rw [h.1]
    decide

/-- C10, counterexample: a single library that does carry a primary
artifact — but one whose path is absent — makes `download_libraries`
raise the `TypeError` inside the task-building loop and abort: no
outcome sequence is returned at all, whereas the claim promises a
sequence with exactly one element for this artifact-bearing library. -/
theorem c10_counterexample :
    has_artifact ⟨"bad", some ⟨some ⟨none, none, some "u"⟩, none⟩, none⟩ = true ∧
    download_libraries digest_len (fun _ => NetResult.success [])
        [⟨"bad", some ⟨some ⟨none, none, some "u"⟩, none⟩, none⟩] [0]
      = Except.error LoopErr.typeError := by
  refine ⟨by decide, by decide⟩

/-- C10 witness: of three libraries — one with a primary artifact (with
a path), one with no downloads block, one whose downloads block lacks an
artifact — only the first yields an outcome: the result is a
single-element sequence against a three-element input. -/
theorem c10_witness :
    download_libraries digest_len (fun _ => NetResult.success [])
        [⟨"with-art", some ⟨some ⟨some "p1", none, some "u1"⟩, none⟩, none⟩,
         ⟨"no-downloads", none, none⟩,
         ⟨"no-artifact", some ⟨none, none⟩, none⟩] [0]
      = Except.ok [some (Except.ok true)] ∧
    ([⟨"with-art", some ⟨some ⟨some "p1", none, some "u1"⟩, none⟩, none⟩,
      ⟨"no-downloads", none, none⟩,
      ⟨"no-artifact", some ⟨none, none⟩, none⟩] : List Library).length = 3 := by
  have h := (c10_library_filtering digest_len (fun _ => NetResult.success [])
    [⟨"with-art", some ⟨some ⟨some "p1", none, some "u1"⟩, none⟩, none⟩,
     ⟨"no-downloads", none, none⟩,
     ⟨"no-artifact", some ⟨none, none⟩, none⟩] [0]).1 (by decide) (by decide)
  refine ⟨?_, by decide⟩
  rw [h.1]
  decide

/-! ## Claim C4: the admission gate -/

theorem countP_set_pc (p : Pc → Bool) :
    ∀ (l : List Pc) (i : Nat) (a b : Pc), l.get? i = some a →
      (l.set i b).countP p + (if p a then 1 else 0)
        = l.countP p + (if p b then 1 else 0) := by
  intro l
  induction l with
  | nil => intro i a b h; cases h
  | cons x xs ih =>
    intro i a b h
    match i with
    | 0 =>
      have hx : a = x := by
        simpa using h.symm
      subst hx
      simp only [List.set, List.countP_cons]
      omega
    | j + 1 =>
      have h2 : xs.get? j = some a := h
      have := ih j a b h2
      simp only [List.set, List.countP_cons]
      omega

theorem sem_step_inv (bound : Nat) (s s' : SemState) (hstep : SemStep s s')
    (ih : s.avail + inFlight s = bound) : s'.avail + inFlight s' = bound := by
  cases hstep with
  | acquire i hi ha =>
    have hc := countP_set_pc Pc.isWorking s.threads i Pc.idle Pc.working hi
    simp only [Pc.isWorking] at hc
    simp only [inFlight] at ih ⊢
    simp at hc
    omega
  | finish i o hi =>
    have hc := countP_set_pc Pc.isWorking s.threads i Pc.working (Pc.done o) hi
    simp only [Pc.isWorking] at hc
    simp only [inFlight] at ih ⊢
    simp at hc
    omega

theorem sem_invariant (bound n : Nat) (s : SemState)
    (h : SemReachable bound n s) : s.avail + inFlight s = bound := by
  induction h with
  | refl =>
    have hz : inFlight (semInit bound n) = 0 := by
      rw [inFlight, List.countP_eq_zero]
      intro pc hpc
      rw [semInit] at hpc
      rw [List.eq_of_mem_replicate hpc]
      decide
    rw [hz]
    rfl
  | tail _ hstep ih =>
    exact sem_step_inv bound _ _ hstep ih

/-- C4: in every state the orchestrator can reach, the tasks in flight —
those between the semaphore acquire at the top of `download_file` and
the release its `finally` clause performs on success, integrity failure
and network error alike — never exceed the configured bound, whose
default is 8; the exact slot accounting `avail + inFlight = bound` holds
because every completed task, whatever its outcome, has returned its
slot. -/
theorem c4_concurrency_bound (bound n : Nat) (s : SemState)
    (h : SemReachable bound n s) :
    inFlight s ≤ bound ∧ s.avail + inFlight s = bound ∧
    concurrent_downloads_default = 8 := by
  have hinv := sem_invariant bound n s h
  exact ⟨by omega, hinv, rfl⟩

/-- C4 witness: with the default bound and two tasks, the state after
one acquire is reachable and respects the bound. -/
theorem c4_witness :
    inFlight ⟨7, [Pc.working, Pc.idle]⟩ ≤ concurrent_downloads_default :=
  (c4_concurrency_bound concurrent_downloads_default 2
    ⟨7, [Pc.working, Pc.idle]⟩
    (Relation.ReflTransGen.tail Relation.ReflTransGen.refl
      (SemStep.acquire (semInit concurrent_downloads_default 2) 0
        (by decide) (by decide)))).1

end Launcher
